import Mathlib

/-!
Shallow embedding of the `hacknaam` package (advertisement-chain publisher).

Modelling conventions:
* Go strings are `List Char` (`Str`), so Go's `strings.TrimPrefix` and slicing
  become list operations.
* Byte blobs that the code treats as opaque serializations are modelled by the
  inductive `Bytes`, whose constructors remember which serializer produced the
  blob.  Serialization and the SHA2-256 multihash are idealized as injective
  (collision-free), so a content identifier `Cid.addr n` is the address of the
  node `n` itself.
* The datastore (`sync.MutexWrap(datastore.NewMapDatastore())`) is an
  association list keyed by `DsKey`; `Put` overwrites in place like a Go map.
  Since the concrete `MapDatastore` never fails, datastore failures are
  injected through an explicit fault schedule (`List Bool`, one flag consumed
  per datastore operation, `true` = that operation returns an error); the
  empty schedule is the fault-free run of the real code.
* Signatures are idealized: a signature is the signer's key identity together
  with the signed payload, and a key pair is one `Nat` (public = private id).
-/

namespace Hacknaam

/-- Go strings, modelled as character lists. -/
abbrev Str := List Char

/-- Errors surfaced by the embedded code.  `storage` is an injected datastore
error, `invalidName` is `ipns.ErrInvalidName`, `invalidPeerID` is a
`peer.Decode` failure, `badVarint`/`varintOverflow` are `varint.ReadUvarint`
failures, `announceFailed` is an `announce.Send` failure and
`unsuccessfulAnnounce` is the wrapping done by `Publish`. -/
inductive Err where
  | storage : Err
  | invalidName : Err
  | invalidPeerID : Err
  | badVarint : Err
  | varintOverflow : Err
  | announceFailed : Err
  | unsuccessfulAnnounce : Err → Err
deriving DecidableEq, Repr

/-- Error message rendering; `Publish` wraps announce failures with
`fmt.Errorf("unsuccessful announce: %w", err)`. -/
def errMsg : Err → Str
  | .storage => "storage error".data
  | .invalidName => "invalid IPNS name".data
  | .invalidPeerID => "failed to parse peer ID".data
  | .badVarint => "unexpected data reading uvarint".data
  | .varintOverflow => "varints larger than uint64 not supported".data
  | .announceFailed => "announce send failed".data
  | .unsuccessfulAnnounce e => "unsuccessful announce: ".data ++ errMsg e

/-- A multihash, idealized as the hash-function code paired with the hashed
bytes themselves (collision-free digest).  `multihash.Sum(b, SHA2_256, -1)`
becomes `(0x12, b)`. -/
abbrev MH := Nat × Str

/-- Idealized `multihash.Sum([]byte(pid), multihash.SHA2_256, -1)`. -/
def sha2mh (pid : Str) : MH := (18, pid)

mutual
/-- A content identifier: `undefined` is `cid.Undef`; `addr n` is the CID of the
stored node `n` (content addressing with an idealized collision-free hash). -/
inductive Cid where
  | undefined : Cid
  | addr : Node → Cid

/-- An IPLD node stored through the link system: either a
`schema.EntryChunk` (list of multihashes) or a `schema.Advertisement` with
fields PreviousID (absent = `Cid.undefined`), Provider, Addresses, Entries,
ContextID, Metadata, and the signature (idealized as the signer's key id). -/
inductive Node where
  | entryChunk : List MH → Node
  | advert : Cid → Str → List Str → Cid → Nat → List Nat → Nat → Node
end

mutual
def Cid.beq : Cid → Cid → Bool
  | .undefined, .undefined => true
  | .addr a, .addr b => Node.beq a b
  | _, _ => false

def Node.beq : Node → Node → Bool
  | .entryChunk a, .entryChunk b => a == b
  | .advert p1 pr1 a1 e1 c1 m1 s1, .advert p2 pr2 a2 e2 c2 m2 s2 =>
      Cid.beq p1 p2 && pr1 == pr2 && a1 == a2 && Cid.beq e1 e2 && c1 == c2
        && m1 == m2 && s1 == s2
  | _, _ => false
end

mutual
theorem cidBeq_iff : ∀ a b : Cid, Cid.beq a b = true ↔ a = b
  | .undefined, .undefined => by simp [Cid.beq]
  | .undefined, .addr _ => by simp [Cid.beq]
  | .addr _, .undefined => by simp [Cid.beq]
  | .addr a, .addr b => by
      simp only [Cid.beq, Cid.addr.injEq]
      exact nodeBeq_iff a b

theorem nodeBeq_iff : ∀ a b : Node, Node.beq a b = true ↔ a = b
  | .entryChunk a, .entryChunk b => by simp [Node.beq]
  | .entryChunk _, .advert _ _ _ _ _ _ _ => by simp [Node.beq]
  | .advert _ _ _ _ _ _ _, .entryChunk _ => by simp [Node.beq]
  | .advert p1 pr1 a1 e1 c1 m1 s1, .advert p2 pr2 a2 e2 c2 m2 s2 => by
      simp only [Node.beq, Bool.and_eq_true, beq_iff_eq, Node.advert.injEq,
        cidBeq_iff p1 p2, cidBeq_iff e1 e2]
      tauto
end

instance : DecidableEq Cid := fun a b =>
  decidable_of_iff (Cid.beq a b = true) (cidBeq_iff a b)

instance : DecidableEq Node := fun a b =>
  decidable_of_iff (Node.beq a b = true) (nodeBeq_iff a b)

/-- The PreviousID field of an advertisement node (undefined for entry chunks,
which carry no previous link). -/
def Node.prevOf : Node → Cid
  | .advert p _ _ _ _ _ _ => p
  | .entryChunk _ => .undefined

/-- The Metadata field of an advertisement node. -/
def Node.mdOf : Node → List Nat
  | .advert _ _ _ _ _ m _ => m
  | .entryChunk _ => []

/-- The Entries link field of an advertisement node. -/
def Node.entriesOf : Node → Cid
  | .advert _ _ _ e _ _ _ => e
  | .entryChunk _ => .undefined

/-- The signature field of an advertisement node (idealized: signer key id). -/
def Node.sigOf : Node → Nat
  | .advert _ _ _ _ _ _ s => s
  | .entryChunk _ => 0

/-- The Provider field of an advertisement node. -/
def Node.providerOf : Node → Str
  | .advert _ p _ _ _ _ _ => p
  | .entryChunk _ => []

/-- Values stored in the datastore, remembering which serializer produced
them: `node n` is the canonical serialization of `n` (link-store values),
`cidOf c` is `c.Bytes()` (the head key's value), `uvarint k` is
`varint.ToUvarint(k)` (the height key's value), and `junk` stands for byte
strings that are not a valid serialization of anything. -/
inductive Bytes where
  | node : Node → Bytes
  | cidOf : Cid → Bytes
  | uvarint : Nat → Bytes
  | junk : Nat → Bytes
deriving DecidableEq

/-- Datastore keys: the two chain-state keys `headAdCid` and `height`, and
the `ls`-namespaced link-store keys (keyed by the link's binary form, which
under the idealized hash is determined by the stored node). -/
inductive DsKey where
  | headAdCid : DsKey
  | height : DsKey
  | ls : Node → DsKey
deriving DecidableEq

/-- The mutable datastore state, an association list with Go-map semantics
(at most one binding per key; `Put` overwrites in place). -/
structure St where
  store : List (DsKey × Bytes)
deriving DecidableEq

/-- Result of a `Publish` call: the Go `error` return together with the
datastore state left behind (state persists across a failed call). -/
inductive POut where
  | ok : St → POut
  | fail : Err → St → POut
deriving DecidableEq

/-- The state left behind by a `Publish` call. -/
def POut.stOf : POut → St
  | .ok st => st
  | .fail _ st => st

/-- Whether a `Publish` call returned a non-nil error. -/
def POut.isFail : POut → Bool
  | .ok _ => false
  | .fail _ _ => true

/-- Go-map assignment on an association list: replace the binding in place
if the key is present, else append. -/
def insertKV (k : DsKey) (v : Bytes) : List (DsKey × Bytes) → List (DsKey × Bytes)
  | [] => [(k, v)]
  | (k', v') :: rest => if k = k' then (k, v) :: rest else (k', v') :: insertKV k v rest

/-- Go-map lookup on an association list. -/
def lookupKV (k : DsKey) : List (DsKey × Bytes) → Option Bytes
  | [] => none
  | (k', v') :: rest => if k = k' then some v' else lookupKV k rest

theorem lookupKV_insertKV_same (k : DsKey) (v : Bytes) :
    ∀ l, lookupKV k (insertKV k v l) = some v := by
  intro l
  induction l with
  | nil => simp [insertKV, lookupKV]
  | cons p rest ih =>
      obtain ⟨a, b⟩ := p
      by_cases h : k = a
      · simp [insertKV, lookupKV, h]
      · simp only [insertKV, lookupKV, if_neg h]
        exact ih

theorem lookupKV_insertKV_ne (k k' : DsKey) (v : Bytes) (h : k' ≠ k) :
    ∀ l, lookupKV k' (insertKV k v l) = lookupKV k' l := by
  intro l
  induction l with
  | nil => simp [insertKV, lookupKV, h]
  | cons p rest ih =>
      obtain ⟨a, b⟩ := p
      by_cases hk : k = a
      · subst hk
        simp only [insertKV, if_pos rfl, lookupKV, if_neg h]
      · simp only [insertKV, if_neg hk, lookupKV]
        by_cases hk' : k' = a
        · simp [hk']
        · simp only [if_neg hk']
          exact ih

theorem insertKV_insertKV_same (k : DsKey) (v : Bytes) :
    ∀ l, insertKV k v (insertKV k v l) = insertKV k v l := by
  intro l
  induction l with
  | nil => simp [insertKV]
  | cons p rest ih =>
      obtain ⟨a, b⟩ := p
      by_cases h : k = a
      · simp [insertKV, h]
      · simp only [insertKV, if_neg h]
        rw [ih]

/-- `2^64`, the modulus of Go's `uint64` arithmetic. -/
def uint64Mod : Nat := 18446744073709551616

theorem uint64Mod_eq : uint64Mod = 2 ^ 64 := by decide

/-- Opaque constant modelling `naam.ContextID` (a fixed byte string shared by
every advertisement this integration produces). -/
def naamContextID : Nat := 0

/-- Opaque constant modelling the `naam.MetadataProtocolID` multicodec. -/
def metadataProtocolID : Nat := 7499218

/-- `24 * time.Hour` in nanoseconds, the record lifetime added to `time.Now()`. -/
def dayDur : Nat := 86400000000000

/-- `ipns.NamespacePrefix`, the `/ipns/` name-namespace marker. -/
def nsPfx : Str := "/ipns/".data

/-- `varint.ToUvarint`: unsigned LEB128 encoding. -/
def toUvarint (n : Nat) : List Nat :=
  if h : n < 128 then [n]
  else (n % 128 + 128) :: toUvarint (n / 128)
termination_by n
decreasing_by
  exact Nat.div_lt_self (by omega) (by omega)

/-- `varint.ReadUvarint` applied to a stored value: succeeds exactly on
varint-serialized values that fit in a `uint64`; other stored shapes are not
valid uvarint serializations in this model. -/
def readUvarintB : Bytes → Except Err Nat
  | .uvarint k => if k < uint64Mod then .ok k else .error .varintOverflow
  | _ => .error .badVarint

/-- `cid.CidFromBytes`: only the byte form of a defined CID decodes; the
bytes of `cid.Undef` (empty) and all other byte strings fail to parse. -/
def cidFromBytes : Bytes → Option Cid
  | .cidOf (.addr n) => some (.addr n)
  | _ => none

/-- An IPNS record signature, idealized as the signing key's identity
together with the signed payload `(value, sequence, eol, ttl)`. -/
structure RecSig where
  signer : Nat
  value : Str
  seq : Nat
  eol : Nat
  ttl : Nat
deriving DecidableEq

/-- The IPNS record built by `ipns.NewRecord(pk, value, seq, eol, ttl,
ipns.WithPublicKey(true))`: the pointed-to path, sequence, expiry, ttl, the
embedded public key, and the record signature. -/
structure IpnsRecord where
  value : Str
  seq : Nat
  eol : Nat
  ttl : Nat
  pubKey : Nat
  sig : RecSig
deriving DecidableEq

/-- `ipns.NewRecord` with `WithPublicKey(true)`: signs the payload with `pk`
and embeds `pk`'s public key (key pairs idealized as a single id). -/
def ipnsNewRecord (pk : Nat) (value : Str) (seq eol ttl : Nat) : IpnsRecord :=
  { value := value, seq := seq, eol := eol, ttl := ttl, pubKey := pk,
    sig := ⟨pk, value, seq, eol, ttl⟩ }

/-- `ipns.Validate(pub, rec)`: the record signature verifies against the
public key `pub` iff it was produced by `pub`'s key over this record's
payload. -/
def verifyRecord (pub : Nat) (r : IpnsRecord) : Bool :=
  r.sig == ⟨pub, r.value, r.seq, r.eol, r.ttl⟩

/-- `ipns.MarshalRecord`, idealized as an encoding that starts with the
sequence number (so equal serializations have equal sequence numbers). -/
def marshalRecord (r : IpnsRecord) : List Nat :=
  r.seq :: r.eol :: r.ttl :: r.pubKey :: r.sig.signer :: r.sig.seq :: r.sig.eol
    :: r.sig.ttl :: (r.value.map Char.toNat ++ r.sig.value.map Char.toNat)

/-- `ipnsMetadata`: the unsigned-varint protocol id followed by the
marshalled record bytes. -/
def ipnsMetadata (r : IpnsRecord) : List Nat :=
  toUvarint metadataProtocolID ++ marshalRecord r

/-- `strings.TrimPrefix`. -/
def trimPfx (s pfx : Str) : Str :=
  if s.take pfx.length = pfx then s.drop pfx.length else s

/-- `peerIDFromName`: strip the `/ipns/` marker (failing if it is missing)
and decode the remainder as a peer ID via the supplied `peer.Decode`. -/
def peerIDFromName (decode : Str → Option Str) (name : Str) : Except Err Str :=
  let spid := trimPfx name nsPfx
  if spid = name then .error .invalidName
  else
    match decode spid with
    | some pid => .ok pid
    | none => .error .invalidPeerID

/-- Consume one flag from the fault schedule (no flag = no fault). -/
def popFault : List Bool → Bool × List Bool
  | [] => (false, [])
  | b :: t => (b, t)

/-- `ds.Get`: consumes a fault flag; an injected fault is a storage error,
otherwise the lookup result (`none` = `datastore.ErrNotFound`). -/
def dsGet (st : St) (fs : List Bool) (k : DsKey) : Except Err (Option Bytes) × List Bool :=
  let p := popFault fs
  if p.1 then (.error .storage, p.2) else (.ok (lookupKV k st.store), p.2)

/-- `ds.Put`: consumes a fault flag; an injected fault is a storage error and
leaves the store unchanged, otherwise the binding is overwritten in place. -/
def dsPut (st : St) (fs : List Bool) (k : DsKey) (v : Bytes) : Except Err St × List Bool :=
  let p := popFault fs
  if p.1 then (.error .storage, p.2) else (.ok ⟨insertKV k v st.store⟩, p.2)

/-- The link system of `makeLinkSys`: store a node under the `ls`-namespaced
key named by its link's binary form, returning the link. -/
def lsStore (st : St) (fs : List Bool) (n : Node) : Except Err Cid × St × List Bool :=
  match dsPut st fs (.ls n) (.node n) with
  | (.error e, fs') => (.error e, st, fs')
  | (.ok st', fs') => (.ok (.addr n), st', fs')

/-- The link system's read side: load the stored serialization of the node a
defined CID addresses. -/
def loadNode (st : St) : Cid → Option Node
  | .undefined => none
  | .addr n =>
    match lookupKV (.ls n) st.store with
    | some (.node m) => some m
    | _ => none

/-- `getHeadAdCid`: absent key or bytes that fail to parse as a CID both
yield `cid.Undef` with no error. -/
def getHeadAdCid (st : St) (fs : List Bool) : Except Err Cid × List Bool :=
  match dsGet st fs .headAdCid with
  | (.error e, fs') => (.error e, fs')
  | (.ok none, fs') => (.ok .undefined, fs')
  | (.ok (some b), fs') =>
    match cidFromBytes b with
    | none => (.ok .undefined, fs')
    | some c => (.ok c, fs')

/-- `previousHeight`: absent key yields 0; present bytes are read as a
uvarint. -/
def previousHeight (st : St) (fs : List Bool) : Except Err Nat × List Bool :=
  match dsGet st fs .height with
  | (.error e, fs') => (.error e, fs')
  | (.ok none, fs') => (.ok 0, fs')
  | (.ok (some b), fs') =>
    match readUvarintB b with
    | .error e => (.error e, fs')
    | .ok h => (.ok h, fs')

/-- `setHeadAdCid`: write the head key, re-read the previous height, then
write the height key with the incremented value (uint64 wrap-around). -/
def setHeadAdCid (st : St) (fs : List Bool) (head : Cid) : Except Err Unit × St × List Bool :=
  match dsPut st fs .headAdCid (.cidOf head) with
  | (.error e, fs') => (.error e, st, fs')
  | (.ok st1, fs') =>
    match previousHeight st1 fs' with
    | (.error e, fs2) => (.error e, st1, fs2)
    | (.ok h, fs2) =>
      match dsPut st1 fs2 .height (.uvarint ((h + 1) % uint64Mod)) with
      | (.error e, fs3) => (.error e, st1, fs3)
      | (.ok st2, fs3) => (.ok (), st2, fs3)

/-- The head the chain state currently denotes: fault-free `getHeadAdCid`
as a pure observation. -/
def headView (st : St) : Cid :=
  match lookupKV .headAdCid st.store with
  | none => .undefined
  | some b =>
    match cidFromBytes b with
    | none => .undefined
    | some c => c

/-- The height the chain state currently denotes: fault-free
`previousHeight` as a pure observation (`none` = unreadable height bytes). -/
def heightView (st : St) : Option Nat :=
  match lookupKV .height st.store with
  | none => some 0
  | some b =>
    match readUvarintB b with
    | .error _ => none
    | .ok h => some h

/-- The fixed collaborators of one `Naam` instance: the host's signing key
and peer ID, the publisher addresses, the current time, the external
`peer.Decode`, and whether `announce.Send` fails. -/
structure Cfg where
  hostKey : Nat
  hostPID : Str
  pubAddrs : List Str
  now : Nat
  peerDecode : Str → Option Str
  announceFails : Bool

/-- `Naam.Publish`: read head and height, build the signed IPNS record with
sequence = height + 1, parse the claimed name, store the entry chunk, build
and sign the advertisement, store it, commit the chain state, announce. -/
def publish (cfg : Cfg) (st : St) (fs : List Bool) (value : Str) (origName : Str) : POut :=
  match getHeadAdCid st fs with
  | (.error e, _) => .fail e st
  | (.ok head, fs1) =>
    let prevLink : Cid := if head = .undefined then .undefined else head
    match previousHeight st fs1 with
    | (.error e, _) => .fail e st
    | (.ok prevHeight, fs2) =>
      let seq := (prevHeight + 1) % uint64Mod
      let pk := cfg.hostKey
      let eol := cfg.now + dayDur
      let ttl := 0
      let ipnsRec := ipnsNewRecord pk value seq eol ttl
      match peerIDFromName cfg.peerDecode origName with
      | .error e => .fail e st
      | .ok hackPID =>
        let mh := sha2mh hackPID
        let cn := Node.entryChunk [mh]
        match lsStore st fs2 cn with
        | (.error e, st', _) => .fail e st'
        | (.ok entriesLink, st3, fs3) =>
          let metadata := ipnsMetadata ipnsRec
          let ad := Node.advert prevLink hackPID cfg.pubAddrs entriesLink
            naamContextID metadata pk
          match lsStore st3 fs3 ad with
          | (.error e, st', _) => .fail e st'
          | (.ok adLink, st4, fs4) =>
            let newHead := adLink
            match setHeadAdCid st4 fs4 newHead with
            | (.error e, st', _) => .fail e st'
            | (.ok _, st5, _) =>
              if cfg.announceFails then .fail (.unsuccessfulAnnounce .announceFailed) st5
              else .ok st5

/-- A freshly created chain: the empty datastore. -/
def freshSt : St := ⟨[]⟩

/-- Run a sequence of fault-free `Publish` calls, stopping at the first
failure. -/
def publishSeq (cfg : Cfg) (inputs : List (Str × Str)) (st : St) : POut :=
  match inputs with
  | [] => .ok st
  | (v, nm) :: rest =>
    match publish cfg st [] v nm with
    | .ok st' => publishSeq cfg rest st'
    | .fail e st' => .fail e st'

/-- The IPNS record a fault-free `Publish` builds when the previous height
is `h`. -/
def builtRecord (cfg : Cfg) (v : Str) (h : Nat) : IpnsRecord :=
  ipnsNewRecord cfg.hostKey v ((h + 1) % uint64Mod) (cfg.now + dayDur) 0

/-- The advertisement a fault-free `Publish` builds from state `st` when the
claimed name decodes to `pid` and the previous height is `h`. -/
def builtAd (cfg : Cfg) (st : St) (v : Str) (pid : Str) (h : Nat) : Node :=
  Node.advert (headView st) pid cfg.pubAddrs (Cid.addr (Node.entryChunk [sha2mh pid]))
    naamContextID (ipnsMetadata (builtRecord cfg v h)) cfg.hostKey

/-- The datastore state a fault-free successful `Publish` leaves behind:
the entry chunk and advertisement blocks, then the new head, then the
incremented height. -/
def stAfter (cfg : Cfg) (st : St) (v : Str) (pid : Str) (h : Nat) : St :=
  ⟨insertKV .height (.uvarint ((h + 1) % uint64Mod))
    (insertKV .headAdCid (.cidOf (.addr (builtAd cfg st v pid h)))
      (insertKV (.ls (builtAd cfg st v pid h)) (.node (builtAd cfg st v pid h))
        (insertKV (.ls (Node.entryChunk [sha2mh pid]))
          (.node (Node.entryChunk [sha2mh pid])) st.store)))⟩

/-! ### Basic facts about the datastore operations -/

theorem dsGet_noFault (st : St) (fs t : List Bool) (k : DsKey)
    (hf : popFault fs = (false, t)) :
    dsGet st fs k = (.ok (lookupKV k st.store), t) := by
  simp [dsGet, hf]

theorem dsGet_fault (st : St) (fs t : List Bool) (k : DsKey)
    (hf : popFault fs = (true, t)) :
    dsGet st fs k = (.error .storage, t) := by
  simp [dsGet, hf]

theorem dsPut_noFault (st : St) (fs t : List Bool) (k : DsKey) (v : Bytes)
    (hf : popFault fs = (false, t)) :
    dsPut st fs k v = (.ok ⟨insertKV k v st.store⟩, t) := by
  simp [dsPut, hf]

theorem dsPut_fault (st : St) (fs t : List Bool) (k : DsKey) (v : Bytes)
    (hf : popFault fs = (true, t)) :
    dsPut st fs k v = (.error .storage, t) := by
  simp [dsPut, hf]

theorem getHeadAdCid_noFault (st : St) (fs t : List Bool)
    (hf : popFault fs = (false, t)) :
    getHeadAdCid st fs = (.ok (headView st), t) := by
  unfold getHeadAdCid headView
  rw [dsGet_noFault st fs t _ hf]
  cases hl : lookupKV .headAdCid st.store with
  | none => simp
  | some b => cases hb : cidFromBytes b <;> simp [hb]

theorem previousHeight_noFault (st : St) (fs t : List Bool) (h : Nat)
    (hf : popFault fs = (false, t)) (hh : heightView st = some h) :
    previousHeight st fs = (.ok h, t) := by
  unfold previousHeight
  unfold heightView at hh
  rw [dsGet_noFault st fs t _ hf]
  cases hl : lookupKV .height st.store with
  | none =>
      rw [hl] at hh
      simp at hh
      subst hh
      simp
  | some b =>
      rw [hl] at hh
      simp at hh
      cases hr : readUvarintB b with
      | error e => rw [hr] at hh; simp at hh
      | ok k =>
          rw [hr] at hh
          simp at hh
          subst hh
          simp [hr]

theorem heightView_lt (st : St) (h : Nat) (hh : heightView st = some h) :
    h < uint64Mod := by
  unfold heightView at hh
  cases hl : lookupKV .height st.store with
  | none =>
      rw [hl] at hh
      simp only [Option.some.injEq] at hh
      subst hh
      simp [uint64Mod]
  | some b =>
      rw [hl] at hh
      cases b with
      | uvarint k =>
          simp only [readUvarintB] at hh
          by_cases hk : k < uint64Mod
          · rw [if_pos hk] at hh
            simp only [Option.some.injEq] at hh
            omega
          · rw [if_neg hk] at hh
            simp at hh
      | node n => simp [readUvarintB] at hh
      | cidOf c => simp [readUvarintB] at hh
      | junk j => simp [readUvarintB] at hh

theorem lsStore_noFault (st : St) (fs t : List Bool) (n : Node)
    (hf : popFault fs = (false, t)) :
    lsStore st fs n = (.ok (.addr n), ⟨insertKV (.ls n) (.node n) st.store⟩, t) := by
  unfold lsStore
  rw [dsPut_noFault st fs t _ _ hf]

theorem lsStore_fault (st : St) (fs t : List Bool) (n : Node)
    (hf : popFault fs = (true, t)) :
    lsStore st fs n = (.error .storage, st, t) := by
  unfold lsStore
  rw [dsPut_fault st fs t _ _ hf]

/-! ### Facts about the pure chain-state views -/

theorem headView_insertKV_ne (k : DsKey) (v : Bytes) (s : List (DsKey × Bytes))
    (hk : k ≠ .headAdCid) :
    headView ⟨insertKV k v s⟩ = headView ⟨s⟩ := by
  unfold headView
  rw [lookupKV_insertKV_ne k .headAdCid v (Ne.symm hk)]

theorem heightView_insertKV_ne (k : DsKey) (v : Bytes) (s : List (DsKey × Bytes))
    (hk : k ≠ .height) :
    heightView ⟨insertKV k v s⟩ = heightView ⟨s⟩ := by
  unfold heightView
  rw [lookupKV_insertKV_ne k .height v (Ne.symm hk)]

theorem headView_insert_head (n : Node) (s : List (DsKey × Bytes)) :
    headView ⟨insertKV .headAdCid (.cidOf (.addr n)) s⟩ = .addr n := by
  unfold headView
  rw [lookupKV_insertKV_same]
  simp [cidFromBytes]

theorem heightView_insert_height (k : Nat) (s : List (DsKey × Bytes))
    (hk : k < uint64Mod) :
    heightView ⟨insertKV .height (.uvarint k) s⟩ = some k := by
  unfold heightView
  rw [lookupKV_insertKV_same]
  simp [readUvarintB, hk]

theorem heightView_stAfter (cfg : Cfg) (st : St) (v pid : Str) (h : Nat) :
    heightView (stAfter cfg st v pid h) = some ((h + 1) % uint64Mod) := by
  unfold stAfter
  exact heightView_insert_height _ _ (Nat.mod_lt _ (by simp [uint64Mod]))

theorem headView_stAfter (cfg : Cfg) (st : St) (v pid : Str) (h : Nat) :
    headView (stAfter cfg st v pid h) = .addr (builtAd cfg st v pid h) := by
  unfold stAfter
  rw [headView_insertKV_ne _ _ _ (by simp)]
  exact headView_insert_head _ _

/-! ### Characterization of a fault-free `Publish` run -/

theorem ite_cid_self (c : Cid) : (if c = Cid.undefined then Cid.undefined else c) = c := by
  split <;> simp_all

theorem dsGet_nil (st : St) (k : DsKey) :
    dsGet st [] k = (.ok (lookupKV k st.store), []) := rfl

theorem dsPut_nil (st : St) (k : DsKey) (v : Bytes) :
    dsPut st [] k v = (.ok ⟨insertKV k v st.store⟩, []) := rfl

theorem previousHeight_noFault_eq (st : St) (fs t : List Bool)
    (hf : popFault fs = (false, t)) :
    previousHeight st fs =
      ((match lookupKV .height st.store with
        | none => Except.ok 0
        | some b =>
          match readUvarintB b with
          | .error e => Except.error e
          | .ok k => Except.ok k), t) := by
  unfold previousHeight
  rw [dsGet_noFault st fs t _ hf]
  cases lookupKV .height st.store with
  | none => rfl
  | some b => cases hr : readUvarintB b <;> simp [hr]

theorem publish_noFault_char (cfg : Cfg) (st : St) (v nm pid : Str) (h : Nat)
    (hname : peerIDFromName cfg.peerDecode nm = .ok pid)
    (hh : heightView st = some h) :
    publish cfg st [] v nm =
      if cfg.announceFails then
        POut.fail (.unsuccessfulAnnounce .announceFailed) (stAfter cfg st v pid h)
      else POut.ok (stAfter cfg st v pid h) := by
  have hget : getHeadAdCid st [] = (.ok (headView st), []) := getHeadAdCid_noFault st [] [] rfl
  have hlt : h < uint64Mod := heightView_lt st h hh
  have hread : readUvarintB (.uvarint h) = .ok h := by
    simp [readUvarintB, hlt]
  have hls : ∀ (s : St) (n : Node),
      lsStore s [] n = (.ok (.addr n), ⟨insertKV (.ls n) (.node n) s.store⟩, []) :=
    fun s n => lsStore_noFault s [] [] n rfl
  have hph : ∀ s : St, previousHeight s [] =
      ((match lookupKV .height s.store with
        | none => Except.ok 0
        | some b =>
          match readUvarintB b with
          | .error e => Except.error e
          | .ok k => Except.ok k), []) :=
    fun s => previousHeight_noFault_eq s [] [] rfl
  unfold heightView at hh
  cases hlook : lookupKV .height st.store with
  | none =>
      rw [hlook] at hh
      simp only [Option.some.injEq] at hh
      subst hh
      simp only [publish, hget, hph, hname, hls, ite_cid_self, setHeadAdCid, dsPut_nil,
        lookupKV_insertKV_ne _ _ _ (by simp : DsKey.height ≠ DsKey.headAdCid),
        lookupKV_insertKV_ne _ _ _ (by simp : (DsKey.height ≠ DsKey.ls _)),
        hlook, stAfter, builtAd, builtRecord]
  | some b =>
      rw [hlook] at hh
      simp only at hh
      cases b with
      | uvarint k =>
          rw [show readUvarintB (.uvarint k) = if k < uint64Mod then .ok k else .error .varintOverflow from rfl] at hh
          by_cases hk : k < uint64Mod
          · rw [if_pos hk] at hh
            simp only [Option.some.injEq] at hh
            subst hh
            simp only [publish, hget, hph, hname, hls, ite_cid_self, setHeadAdCid, dsPut_nil,
              lookupKV_insertKV_ne _ _ _ (by simp : DsKey.height ≠ DsKey.headAdCid),
              lookupKV_insertKV_ne _ _ _ (by simp : (DsKey.height ≠ DsKey.ls _)),
              hlook, hread, stAfter, builtAd, builtRecord]
          · rw [if_neg hk] at hh
            simp at hh
      | node n => simp [readUvarintB] at hh
      | cidOf c => simp [readUvarintB] at hh
      | junk j => simp [readUvarintB] at hh

/-! ### The chain structure reachable by walking `previousLink` -/

/-- Walk `previousLink` from `c`, loading each advertisement from the link
store, with at most `fuel` loads: returns the number of advertisements
between `c` and the chain root (absent previous link), or `none` if a load
fails, a non-advertisement node is reached, or the walk does not reach the
root within `fuel` loads (in particular on a cycle). -/
def chainDepth (st : St) : Nat → Cid → Option Nat
  | _, .undefined => some 0
  | 0, .addr _ => none
  | fuel + 1, .addr n =>
    match loadNode st (.addr n) with
    | some (.advert p _ _ _ _ _ _) => (chainDepth st fuel p).map (· + 1)
    | _ => none

/-- The chain invariant: from `c` down to the root there are exactly `n`
stored advertisements, the `j`-th from the root carrying an embedded naming
record with sequence number `j`. -/
def chainInv (st : St) : Nat → Cid → Prop
  | 0, c => c = Cid.undefined
  | n + 1, c =>
    ∃ p pr ads ent ctx md sg r,
      c = Cid.addr (Node.advert p pr ads ent ctx md sg) ∧
      lookupKV (DsKey.ls (Node.advert p pr ads ent ctx md sg)) st.store
        = some (.node (Node.advert p pr ads ent ctx md sg)) ∧
      md = ipnsMetadata r ∧ r.seq = n + 1 ∧
      chainInv st n p

theorem chainDepth_of_chainInv (st : St) :
    ∀ n c, chainInv st n c → chainDepth st n c = some n := by
  intro n
  induction n with
  | zero =>
      intro c hc
      rw [show c = Cid.undefined from hc]
      rfl
  | succ n ih =>
      intro c hc
      obtain ⟨p, pr, ads, ent, ctx, md, sg, r, rfl, hlk, hmd, hseq, hrec⟩ := hc
      have hload : loadNode st (.addr (Node.advert p pr ads ent ctx md sg))
          = some (Node.advert p pr ads ent ctx md sg) := by
        simp [loadNode, hlk]
      simp [chainDepth, hload, ih p hrec]

theorem ipnsMetadata_seq_inj (r1 r2 : IpnsRecord)
    (h : ipnsMetadata r1 = ipnsMetadata r2) : r1.seq = r2.seq := by
  unfold ipnsMetadata at h
  have h2 := List.append_cancel_left h
  unfold marshalRecord at h2
  simp only [List.cons.injEq] at h2
  exact h2.1

theorem chainInv_insert_nonls (s : List (DsKey × Bytes)) (k : DsKey) (v : Bytes)
    (hk : ∀ m : Node, k ≠ .ls m) :
    ∀ n c, chainInv ⟨s⟩ n c → chainInv ⟨insertKV k v s⟩ n c := by
  intro n
  induction n with
  | zero => intro c hc; exact hc
  | succ n ih =>
      intro c hc
      obtain ⟨p, pr, ads, ent, ctx, md, sg, r, rfl, hlk, hmd, hseq, hrec⟩ := hc
      refine ⟨p, pr, ads, ent, ctx, md, sg, r, rfl, ?_, hmd, hseq, ih p hrec⟩
      rw [lookupKV_insertKV_ne k _ v (Ne.symm (hk _))]
      exact hlk

theorem chainInv_insert_chunk (s : List (DsKey × Bytes)) (es : List MH) (v : Bytes) :
    ∀ n c, chainInv ⟨s⟩ n c → chainInv ⟨insertKV (.ls (.entryChunk es)) v s⟩ n c := by
  intro n
  induction n with
  | zero => intro c hc; exact hc
  | succ n ih =>
      intro c hc
      obtain ⟨p, pr, ads, ent, ctx, md, sg, r, rfl, hlk, hmd, hseq, hrec⟩ := hc
      refine ⟨p, pr, ads, ent, ctx, md, sg, r, rfl, ?_, hmd, hseq, ih p hrec⟩
      rw [lookupKV_insertKV_ne _ _ v (by simp)]
      exact hlk

theorem chainInv_insert_newAd (s : List (DsKey × Bytes))
    (p0 : Cid) (pr0 : Str) (a0 : List Str) (e0 : Cid) (c0 : Nat) (s0 : Nat)
    (r0 : IpnsRecord) (v : Bytes) :
    ∀ n c, n < r0.seq → chainInv ⟨s⟩ n c →
      chainInv ⟨insertKV (.ls (.advert p0 pr0 a0 e0 c0 (ipnsMetadata r0) s0)) v s⟩ n c := by
  intro n
  induction n with
  | zero => intro c _ hc; exact hc
  | succ n ih =>
      intro c hlt hc
      obtain ⟨p, pr, ads, ent, ctx, md, sg, r, rfl, hlk, hmd, hseq, hrec⟩ := hc
      refine ⟨p, pr, ads, ent, ctx, md, sg, r, rfl, ?_, hmd, hseq, ih p (by omega) hrec⟩
      rw [lookupKV_insertKV_ne _ _ v ?_]
      · exact hlk
      · intro hkeq
        simp only [DsKey.ls.injEq, Node.advert.injEq] at hkeq
        have hmdeq : md = ipnsMetadata r0 := hkeq.2.2.2.2.2.1
        rw [hmd] at hmdeq
        have := ipnsMetadata_seq_inj r r0 hmdeq
        omega

/-! ### One successful publish step and runs of successful publishes -/

theorem publish_step (cfg : Cfg) (st : St) (v nm pid : Str) (n : Nat)
    (hname : peerIDFromName cfg.peerDecode nm = .ok pid)
    (hh : heightView st = some n)
    (hn : n + 1 < uint64Mod)
    (hann : cfg.announceFails = false)
    (hinv : chainInv st n (headView st)) :
    publish cfg st [] v nm = .ok (stAfter cfg st v pid n) ∧
    heightView (stAfter cfg st v pid n) = some (n + 1) ∧
    headView (stAfter cfg st v pid n) = .addr (builtAd cfg st v pid n) ∧
    chainInv (stAfter cfg st v pid n) (n + 1) (headView (stAfter cfg st v pid n)) := by
  have hmod : (n + 1) % uint64Mod = n + 1 := Nat.mod_eq_of_lt hn
  have hpub := publish_noFault_char cfg st v nm pid n hname hh
  rw [hann] at hpub
  simp only [Bool.false_eq_true, if_false] at hpub
  have hseq0 : (builtRecord cfg v n).seq = n + 1 := by
    simp [builtRecord, ipnsNewRecord, hmod]
  refine ⟨hpub, by rw [heightView_stAfter, hmod], headView_stAfter cfg st v pid n, ?_⟩
  rw [headView_stAfter]
  have i1 : chainInv ⟨insertKV (.ls (Node.entryChunk [sha2mh pid]))
      (.node (Node.entryChunk [sha2mh pid])) st.store⟩ n (headView st) :=
    chainInv_insert_chunk st.store _ _ n (headView st) hinv
  have i2 : chainInv ⟨insertKV (.ls (builtAd cfg st v pid n)) (.node (builtAd cfg st v pid n))
      (insertKV (.ls (Node.entryChunk [sha2mh pid])) (.node (Node.entryChunk [sha2mh pid]))
        st.store)⟩ n (headView st) :=
    chainInv_insert_newAd
      (insertKV (.ls (Node.entryChunk [sha2mh pid])) (.node (Node.entryChunk [sha2mh pid]))
        st.store)
      (headView st) pid cfg.pubAddrs (Cid.addr (Node.entryChunk [sha2mh pid])) naamContextID
      cfg.hostKey (builtRecord cfg v n) (.node (builtAd cfg st v pid n))
      n (headView st) (by rw [hseq0]; omega) i1
  have i3 : chainInv ⟨insertKV .headAdCid (.cidOf (.addr (builtAd cfg st v pid n)))
      (insertKV (.ls (builtAd cfg st v pid n)) (.node (builtAd cfg st v pid n))
        (insertKV (.ls (Node.entryChunk [sha2mh pid])) (.node (Node.entryChunk [sha2mh pid]))
          st.store))⟩ n (headView st) :=
    chainInv_insert_nonls _ _ _ (fun m => by simp) n (headView st) i2
  have i4 : chainInv (stAfter cfg st v pid n) n (headView st) :=
    chainInv_insert_nonls _ _ _ (fun m => by simp) n (headView st) i3
  refine ⟨headView st, pid, cfg.pubAddrs, Cid.addr (Node.entryChunk [sha2mh pid]),
    naamContextID, ipnsMetadata (builtRecord cfg v n), cfg.hostKey, builtRecord cfg v n,
    rfl, ?_, rfl, hseq0, i4⟩
  show lookupKV _ (stAfter cfg st v pid n).store = _
  simp only [stAfter]
  rw [lookupKV_insertKV_ne _ _ _ (by simp), lookupKV_insertKV_ne _ _ _ (by simp)]
  exact lookupKV_insertKV_same _ _ _

theorem publishSeq_ok (cfg : Cfg) (hann : cfg.announceFails = false) :
    ∀ (inputs : List (Str × Str)) (st : St) (n : Nat),
    (∀ p ∈ inputs, ∃ pid, peerIDFromName cfg.peerDecode p.2 = .ok pid) →
    heightView st = some n →
    chainInv st n (headView st) →
    n + inputs.length < uint64Mod →
    ∃ st', publishSeq cfg inputs st = .ok st' ∧
      heightView st' = some (n + inputs.length) ∧
      chainInv st' (n + inputs.length) (headView st') := by
  intro inputs
  induction inputs with
  | nil =>
      intro st n _ hh hinv _
      exact ⟨st, rfl, by simpa using hh, by simpa using hinv⟩
  | cons p rest ih =>
      intro st n hval hh hinv hlen
      obtain ⟨v, nm⟩ := p
      obtain ⟨pid, hname⟩ := hval (v, nm) (by simp)
      have hn1 : n + 1 < uint64Mod := by
        simp only [List.length_cons] at hlen
        omega
      obtain ⟨hpub, hh', hhd', hinv'⟩ := publish_step cfg st v nm pid n hname hh hn1 hann hinv
      have hrest := ih (stAfter cfg st v pid n) (n + 1)
        (fun q hq => hval q (by simp [hq])) hh' hinv'
        (by simp only [List.length_cons] at hlen; omega)
      obtain ⟨st', h1, h2, h3⟩ := hrest
      refine ⟨st', ?_, ?_, ?_⟩
      · simp only [publishSeq, hpub]
        exact h1
      · rw [h2]
        simp only [List.length_cons]
        congr 1
        omega
      · have harith : n + 1 + rest.length = n + (rest.length + 1) := by omega
        rw [harith] at h3
        simpa using h3

/-! ### Behaviour of the chain-state commit under injected write failures -/

theorem previousHeight_fault (st : St) (fs t : List Bool)
    (hf : popFault fs = (true, t)) :
    previousHeight st fs = (.error .storage, t) := by
  unfold previousHeight
  rw [dsGet_fault st fs t _ hf]

theorem setHeadAdCid_faults (st : St) (b5 b6 b7 : Bool) (c : Cid) (h : Nat)
    (hh : heightView st = some h) :
    setHeadAdCid st [b5, b6, b7] c =
      if b5 then (.error .storage, st, [b6, b7])
      else if b6 then (.error .storage, ⟨insertKV .headAdCid (.cidOf c) st.store⟩, [b7])
      else if b7 then (.error .storage, ⟨insertKV .headAdCid (.cidOf c) st.store⟩, [])
      else (.ok (), ⟨insertKV .height (.uvarint ((h + 1) % uint64Mod))
        (insertKV .headAdCid (.cidOf c) st.store)⟩, []) := by
  have hh1 : heightView ⟨insertKV .headAdCid (.cidOf c) st.store⟩ = some h := by
    rw [heightView_insertKV_ne _ _ _ (by simp)]
    exact hh
  cases b5 with
  | true =>
      have h1 : dsPut st [true, b6, b7] .headAdCid (.cidOf c) = (.error .storage, [b6, b7]) :=
        dsPut_fault st [true, b6, b7] [b6, b7] _ _ rfl
      simp only [setHeadAdCid, h1]
      simp
  | false =>
      have h1 : dsPut st [false, b6, b7] .headAdCid (.cidOf c)
          = (.ok ⟨insertKV .headAdCid (.cidOf c) st.store⟩, [b6, b7]) :=
        dsPut_noFault st [false, b6, b7] [b6, b7] _ _ rfl
      simp only [setHeadAdCid, h1]
      cases b6 with
      | true =>
          have h2 : previousHeight ⟨insertKV .headAdCid (.cidOf c) st.store⟩ [true, b7]
              = (.error .storage, [b7]) :=
            previousHeight_fault _ [true, b7] [b7] rfl
          simp only [h2]
          simp
      | false =>
          have h2 : previousHeight ⟨insertKV .headAdCid (.cidOf c) st.store⟩ [false, b7]
              = (.ok h, [b7]) :=
            previousHeight_noFault _ [false, b7] [b7] h rfl hh1
          simp only [h2]
          cases b7 with
          | true =>
              have h3 : dsPut ⟨insertKV .headAdCid (.cidOf c) st.store⟩ [true] .height
                  (.uvarint ((h + 1) % uint64Mod)) = (.error .storage, []) :=
                dsPut_fault _ [true] [] _ _ rfl
              simp only [h3]
              simp
          | false =>
              have h3 : dsPut ⟨insertKV .headAdCid (.cidOf c) st.store⟩ [false] .height
                  (.uvarint ((h + 1) % uint64Mod))
                  = (.ok ⟨insertKV .height (.uvarint ((h + 1) % uint64Mod))
                      (insertKV .headAdCid (.cidOf c) st.store)⟩, []) :=
                dsPut_noFault _ [false] [] _ _ rfl
              simp only [h3]
              simp

/-- `stMid` is the state after the entry chunk and advertisement are stored
but before the chain-state commit. -/
def stMid (cfg : Cfg) (st : St) (v pid : Str) (h : Nat) : St :=
  ⟨insertKV (.ls (builtAd cfg st v pid h)) (.node (builtAd cfg st v pid h))
    (insertKV (.ls (Node.entryChunk [sha2mh pid]))
      (.node (Node.entryChunk [sha2mh pid])) st.store)⟩

theorem headView_stMid (cfg : Cfg) (st : St) (v pid : Str) (h : Nat) :
    headView (stMid cfg st v pid h) = headView st := by
  unfold stMid
  rw [headView_insertKV_ne _ _ _ (by simp), headView_insertKV_ne _ _ _ (by simp)]

theorem heightView_stMid (cfg : Cfg) (st : St) (v pid : Str) (h : Nat) :
    heightView (stMid cfg st v pid h) = heightView st := by
  unfold stMid
  rw [heightView_insertKV_ne _ _ _ (by simp), heightView_insertKV_ne _ _ _ (by simp)]

theorem publish_prefix_char (cfg : Cfg) (st : St) (v nm pid : Str) (h : Nat)
    (rest : List Bool)
    (hname : peerIDFromName cfg.peerDecode nm = .ok pid)
    (hh : heightView st = some h) :
    publish cfg st (false :: false :: false :: false :: rest) v nm =
      (match setHeadAdCid (stMid cfg st v pid h) rest (.addr (builtAd cfg st v pid h)) with
       | (.error e, st', _) => POut.fail e st'
       | (.ok _, st5, _) =>
         if cfg.announceFails then POut.fail (.unsuccessfulAnnounce .announceFailed) st5
         else POut.ok st5) := by
  have hget : getHeadAdCid st (false :: false :: false :: false :: rest)
      = (.ok (headView st), false :: false :: false :: rest) :=
    getHeadAdCid_noFault st _ _ rfl
  have hlt : h < uint64Mod := heightView_lt st h hh
  have hread : readUvarintB (.uvarint h) = .ok h := by
    simp [readUvarintB, hlt]
  have hls : ∀ (s : St) (t : List Bool) (n : Node),
      lsStore s (false :: t) n = (.ok (.addr n), ⟨insertKV (.ls n) (.node n) s.store⟩, t) :=
    fun s t n => lsStore_noFault s _ t n rfl
  have hph : previousHeight st (false :: false :: false :: rest) =
      ((match lookupKV .height st.store with
        | none => Except.ok 0
        | some b =>
          match readUvarintB b with
          | .error e => Except.error e
          | .ok k => Except.ok k), false :: false :: rest) :=
    previousHeight_noFault_eq st _ _ rfl
  unfold heightView at hh
  cases hlook : lookupKV .height st.store with
  | none =>
      rw [hlook] at hh
      simp only [Option.some.injEq] at hh
      subst hh
      simp only [publish, hget, hph, hname, hls, ite_cid_self, hlook, stMid, builtAd,
        builtRecord]
  | some b =>
      rw [hlook] at hh
      simp only at hh
      cases b with
      | uvarint k =>
          rw [show readUvarintB (.uvarint k)
              = if k < uint64Mod then .ok k else .error .varintOverflow from rfl] at hh
          by_cases hk : k < uint64Mod
          · rw [if_pos hk] at hh
            simp only [Option.some.injEq] at hh
            subst hh
            simp only [publish, hget, hph, hname, hls, ite_cid_self, hlook, hread, stMid,
              builtAd, builtRecord]
          · rw [if_neg hk] at hh
            simp at hh
      | node n => simp [readUvarintB] at hh
      | cidOf c => simp [readUvarintB] at hh
      | junk j => simp [readUvarintB] at hh

/-! ### Name parsing and the invalid-name path of `Publish` -/

/-- The `InvalidNameFormat` error class: missing name-namespace marker or
undecodable peer identity. -/
def Err.isNameErr : Err → Bool
  | .invalidName => true
  | .invalidPeerID => true
  | _ => false

theorem peerIDFromName_noNs (decode : Str → Option Str) (name : Str)
    (hp : ¬ name.take nsPfx.length = nsPfx) :
    peerIDFromName decode name = .error .invalidName := by
  simp only [peerIDFromName, trimPfx, if_neg hp, if_pos rfl]
  simp

theorem drop_nsPfx_ne (name : Str) (hp : name.take nsPfx.length = nsPfx) :
    name.drop nsPfx.length ≠ name := by
  have hlen : nsPfx.length ≤ name.length := by
    have h1 := congrArg List.length hp
    rw [List.length_take] at h1
    omega
  have hnp : 0 < nsPfx.length := by decide
  intro heq
  have h2 := congrArg List.length heq
  rw [List.length_drop] at h2
  omega

theorem peerIDFromName_badPid (decode : Str → Option Str) (name : Str)
    (hp : name.take nsPfx.length = nsPfx)
    (hd : decode (name.drop nsPfx.length) = none) :
    peerIDFromName decode name = .error .invalidPeerID := by
  simp only [peerIDFromName, trimPfx, if_pos hp, if_neg (drop_nsPfx_ne name hp), hd]

theorem peerIDFromName_okOf (decode : Str → Option Str) (name pid : Str)
    (hp : name.take nsPfx.length = nsPfx)
    (hd : decode (name.drop nsPfx.length) = some pid) :
    peerIDFromName decode name = .ok pid := by
  simp only [peerIDFromName, trimPfx, if_pos hp, if_neg (drop_nsPfx_ne name hp), hd]

theorem publish_nameErr (cfg : Cfg) (st : St) (v nm : Str) (e : Err) (h : Nat)
    (hh : heightView st = some h)
    (hname : peerIDFromName cfg.peerDecode nm = .error e) :
    publish cfg st [] v nm = .fail e st := by
  have hget := getHeadAdCid_noFault st [] [] rfl
  have hprev : previousHeight st [] = (.ok h, []) :=
    previousHeight_noFault st [] [] h rfl hh
  simp only [publish, hget, hprev, hname]

/-! ### Concrete demonstration inputs used by the witnesses -/

/-- A concrete external `peer.Decode`: exactly the string `pid1` decodes. -/
def demoDecode : Str → Option Str := fun s => if s = "pid1".data then some s else none

/-- A concrete publisher configuration with a working announcer. -/
def demoCfg : Cfg :=
  { hostKey := 1, hostPID := "hacker".data,
    pubAddrs := ["/dns4/localhost/tcp/9999/http".data],
    now := 0, peerDecode := demoDecode, announceFails := false }

/-- The same publisher configuration with a failing announcer. -/
def demoCfgAnn : Cfg :=
  { hostKey := 1, hostPID := "hacker".data,
    pubAddrs := ["/dns4/localhost/tcp/9999/http".data],
    now := 0, peerDecode := demoDecode, announceFails := true }

/-- A state whose stored head bytes do not parse as a CID. -/
def stJunkHead : St := ⟨[(DsKey.headAdCid, Bytes.junk 7)]⟩

theorem publish_noFault_ok (cfg : Cfg) (st : St) (v nm pid : Str) (h : Nat)
    (hname : peerIDFromName cfg.peerDecode nm = .ok pid)
    (hh : heightView st = some h)
    (hann : cfg.announceFails = false) :
    publish cfg st [] v nm = .ok (stAfter cfg st v pid h) := by
  have hpub := publish_noFault_char cfg st v nm pid h hname hh
  rw [hann] at hpub
  simpa using hpub

theorem publish_noFault_annErr (cfg : Cfg) (st : St) (v nm pid : Str) (h : Nat)
    (hname : peerIDFromName cfg.peerDecode nm = .ok pid)
    (hh : heightView st = some h)
    (hann : cfg.announceFails = true) :
    publish cfg st [] v nm
      = .fail (.unsuccessfulAnnounce .announceFailed) (stAfter cfg st v pid h) := by
  have hpub := publish_noFault_char cfg st v nm pid h hname hh
  rw [hann] at hpub
  simpa using hpub

/-! ### The claims -/

/-- C1, counterexample: a `Publish` call against a fresh chain in which the
chain-state commit fails partway (the height-key write returns an error after
the head-key write succeeded) leaves the persisted head advanced while the
height keeps its pre-call value, so the head/height pair observed afterwards
is NOT identical to its pre-call values: they advance independently. -/
theorem publish_commit_partial_cex :
    (publish demoCfg freshSt [false, false, false, false, false, false, true]
        "/path/x".data "/ipns/pid1".data).isFail = true ∧
    ¬ (headView (publish demoCfg freshSt [false, false, false, false, false, false, true]
          "/path/x".data "/ipns/pid1".data).stOf = headView freshSt ∧
       heightView (publish demoCfg freshSt [false, false, false, false, false, false, true]
          "/path/x".data "/ipns/pid1".data).stOf = heightView freshSt) := by
  decide

/-- C1, amended: when the chain-state commit of a `Publish` fails (a fault at
the head-key write, the height re-read, or the height-key write), the call
fails with a storage error and the persisted height always keeps its pre-call
value; the persisted head keeps its pre-call value exactly when the head-key
write itself failed, and otherwise has already advanced to the new
advertisement — head and height can diverge on a partial commit. -/
theorem publish_commit_partial_amended (cfg : Cfg) (st : St) (v nm pid : Str) (h : Nat)
    (b5 b6 b7 : Bool)
    (hname : peerIDFromName cfg.peerDecode nm = .ok pid)
    (hh : heightView st = some h)
    (hfail : b5 = true ∨ b6 = true ∨ b7 = true) :
    ∃ st', publish cfg st [false, false, false, false, b5, b6, b7] v nm
        = .fail .storage st' ∧
      heightView st' = some h ∧
      (b5 = true → headView st' = headView st) ∧
      (b5 = false → headView st' = .addr (builtAd cfg st v pid h)) := by
  rw [publish_prefix_char cfg st v nm pid h [b5, b6, b7] hname hh,
    setHeadAdCid_faults (stMid cfg st v pid h) b5 b6 b7 (.addr (builtAd cfg st v pid h)) h
      (by rw [heightView_stMid]; exact hh)]
  cases b5 with
  | true =>
      refine ⟨stMid cfg st v pid h, rfl, ?_, ?_, ?_⟩
      · rw [heightView_stMid]; exact hh
      · intro _; rw [headView_stMid]
      · intro hcontra; simp at hcontra
  | false =>
      cases b6 with
      | true =>
          refine ⟨⟨insertKV .headAdCid (.cidOf (.addr (builtAd cfg st v pid h)))
            (stMid cfg st v pid h).store⟩, rfl, ?_, ?_, ?_⟩
          · rw [heightView_insertKV_ne _ _ _ (by simp)]
            rw [show (⟨(stMid cfg st v pid h).store⟩ : St) = stMid cfg st v pid h from rfl,
              heightView_stMid]
            exact hh
          · intro hcontra; simp at hcontra
          · intro _; exact headView_insert_head _ _
      | false =>
          cases b7 with
          | true =>
              refine ⟨⟨insertKV .headAdCid (.cidOf (.addr (builtAd cfg st v pid h)))
                (stMid cfg st v pid h).store⟩, rfl, ?_, ?_, ?_⟩
              · rw [heightView_insertKV_ne _ _ _ (by simp)]
                rw [show (⟨(stMid cfg st v pid h).store⟩ : St) = stMid cfg st v pid h from rfl,
                  heightView_stMid]
                exact hh
              · intro hcontra; simp at hcontra
              · intro _; exact headView_insert_head _ _
          | false =>
              rcases hfail with hc | hc | hc <;> simp at hc

/-- Witness for the amended C1: a concrete run in which the height-key write
fails after the head-key write succeeded. -/
theorem publish_commit_partial_amended_witness :
    ∃ st', publish demoCfg freshSt [false, false, false, false, false, false, true]
        "/path/x".data "/ipns/pid1".data = .fail .storage st' ∧
      heightView st' = some 0 ∧
      (false = true → headView st' = headView freshSt) ∧
      (false = false → headView st' =
        .addr (builtAd demoCfg freshSt "/path/x".data "pid1".data 0)) :=
  publish_commit_partial_amended demoCfg freshSt "/path/x".data "/ipns/pid1".data
    "pid1".data 0 false false true rfl rfl (Or.inr (Or.inr rfl))

/-- C2: for every sequence of successful `Publish` calls against one freshly
created chain (height absent, hence 0), the persisted height after the `N`-th
call equals `N`, and the naming record embedded in the `N`-th advertisement
(the head) carries sequence number `N` (each call uses the previously
persisted height plus one). -/
theorem publishSeq_height_eq_length (cfg : Cfg) (inputs : List (Str × Str))
    (hval : ∀ p ∈ inputs, ∃ pid, peerIDFromName cfg.peerDecode p.2 = .ok pid)
    (hann : cfg.announceFails = false)
    (hlen : inputs.length < uint64Mod) :
    ∃ st', publishSeq cfg inputs freshSt = .ok st' ∧
      heightView st' = some inputs.length ∧
      (0 < inputs.length →
        ∃ p pr ads ent ctx md sg r,
          headView st' = .addr (Node.advert p pr ads ent ctx md sg) ∧
          md = ipnsMetadata r ∧ r.seq = inputs.length) := by
  obtain ⟨st', h1, h2, h3⟩ :=
    publishSeq_ok cfg hann inputs freshSt 0 hval rfl rfl (by omega)
  rw [Nat.zero_add] at h2 h3
  refine ⟨st', h1, h2, ?_⟩
  intro hpos
  cases hl : inputs.length with
  | zero => omega
  | succ m =>
      rw [hl] at h3
      obtain ⟨p, pr, ads, ent, ctx, md, sg, r, hc, hlk, hmd, hseq, _⟩ := h3
      exact ⟨p, pr, ads, ent, ctx, md, sg, r, hc, hmd, by rw [hseq]⟩

/-- Witness for C2: two successful publishes starting from the fresh chain
leave height 2 and a head advertisement whose record has sequence 2. -/
theorem publishSeq_height_eq_length_witness :
    ∃ st', publishSeq demoCfg
        [("/p1".data, "/ipns/pid1".data), ("/p2".data, "/ipns/pid1".data)] freshSt
        = .ok st' ∧
      heightView st' = some 2 ∧
      (0 < 2 →
        ∃ p pr ads ent ctx md sg r,
          headView st' = .addr (Node.advert p pr ads ent ctx md sg) ∧
          md = ipnsMetadata r ∧ r.seq = 2) := by
  have hval : ∀ p ∈ ([("/p1".data, "/ipns/pid1".data), ("/p2".data, "/ipns/pid1".data)]
      : List (Str × Str)), ∃ pid, peerIDFromName demoCfg.peerDecode p.2 = .ok pid := by
    intro p hp
    cases hp with
    | head => exact ⟨"pid1".data, rfl⟩
    | tail _ hp2 =>
        cases hp2 with
        | head => exact ⟨"pid1".data, rfl⟩
        | tail _ hp3 => cases hp3
  simpa using publishSeq_height_eq_length demoCfg
    [("/p1".data, "/ipns/pid1".data), ("/p2".data, "/ipns/pid1".data)] hval rfl (by decide)

/-- C3: after every run of successful `Publish` calls from the fresh chain,
walking `previousLink` from the current head visits exactly `height`
advertisements and ends at one with an absent previous link (the root), with
no cycle (the walk completes within `height` loads); and each single
`Publish` sets the new advertisement's previous link to the prior head,
leaving it absent exactly when no (decodable) head was stored before the
call. -/
theorem publishSeq_chain_walk (cfg : Cfg) (inputs : List (Str × Str))
    (hval : ∀ p ∈ inputs, ∃ pid, peerIDFromName cfg.peerDecode p.2 = .ok pid)
    (hann : cfg.announceFails = false)
    (hlen : inputs.length < uint64Mod) :
    (∃ st', publishSeq cfg inputs freshSt = .ok st' ∧
       heightView st' = some inputs.length ∧
       chainDepth st' inputs.length (headView st') = some inputs.length) ∧
    (∀ (st : St) (v nm pid : Str) (h : Nat),
       peerIDFromName cfg.peerDecode nm = .ok pid →
       heightView st = some h →
       ∃ st', publish cfg st [] v nm = .ok st' ∧
         headView st' = .addr (builtAd cfg st v pid h) ∧
         Node.prevOf (builtAd cfg st v pid h) = headView st ∧
         (Node.prevOf (builtAd cfg st v pid h) = .undefined ↔ headView st = .undefined)) := by
  constructor
  · obtain ⟨st', h1, h2, h3⟩ :=
      publishSeq_ok cfg hann inputs freshSt 0 hval rfl rfl (by omega)
    rw [Nat.zero_add] at h2 h3
    exact ⟨st', h1, h2, chainDepth_of_chainInv st' _ _ h3⟩
  · intro st v nm pid h hname hh
    refine ⟨stAfter cfg st v pid h, publish_noFault_ok cfg st v nm pid h hname hh hann,
      headView_stAfter cfg st v pid h, rfl, Iff.rfl⟩

/-- Witness for C3: after two publishes the walk from the head visits exactly
2 advertisements, and a single publish from the fresh chain has an absent
previous link. -/
theorem publishSeq_chain_walk_witness :
    (∃ st', publishSeq demoCfg
        [("/p1".data, "/ipns/pid1".data), ("/p2".data, "/ipns/pid1".data)] freshSt
        = .ok st' ∧
      heightView st' = some 2 ∧
      chainDepth st' 2 (headView st') = some 2) ∧
    (∃ st', publish demoCfg freshSt [] "/p1".data "/ipns/pid1".data = .ok st' ∧
      headView st' = .addr (builtAd demoCfg freshSt "/p1".data "pid1".data 0) ∧
      Node.prevOf (builtAd demoCfg freshSt "/p1".data "pid1".data 0) = headView freshSt ∧
      (Node.prevOf (builtAd demoCfg freshSt "/p1".data "pid1".data 0) = .undefined
        ↔ headView freshSt = .undefined)) := by
  have hval : ∀ p ∈ ([("/p1".data, "/ipns/pid1".data), ("/p2".data, "/ipns/pid1".data)]
      : List (Str × Str)), ∃ pid, peerIDFromName demoCfg.peerDecode p.2 = .ok pid := by
    intro p hp
    cases hp with
    | head => exact ⟨"pid1".data, rfl⟩
    | tail _ hp2 =>
        cases hp2 with
        | head => exact ⟨"pid1".data, rfl⟩
        | tail _ hp3 => cases hp3
  have hmain := publishSeq_chain_walk demoCfg
    [("/p1".data, "/ipns/pid1".data), ("/p2".data, "/ipns/pid1".data)] hval rfl (by decide)
  exact ⟨by simpa using hmain.1,
    hmain.2 freshSt "/p1".data "/ipns/pid1".data "pid1".data 0 rfl rfl⟩

/-- C4: when every step through the chain-state commit succeeds but the
announce to the indexer fails, `Publish` returns an error wrapped with the
`unsuccessful announce` label, and the returned state already has head and
height durably advanced to the new advertisement — only a re-announce is
needed, not a republish. -/
theorem publish_announce_fail_committed (cfg : Cfg) (st : St) (v nm pid : Str) (h : Nat)
    (hname : peerIDFromName cfg.peerDecode nm = .ok pid)
    (hh : heightView st = some h)
    (hann : cfg.announceFails = true) :
    publish cfg st [] v nm
        = .fail (.unsuccessfulAnnounce .announceFailed) (stAfter cfg st v pid h) ∧
      headView (stAfter cfg st v pid h) = .addr (builtAd cfg st v pid h) ∧
      heightView (stAfter cfg st v pid h) = some ((h + 1) % uint64Mod) ∧
      errMsg (.unsuccessfulAnnounce .announceFailed)
        = "unsuccessful announce: ".data ++ errMsg .announceFailed :=
  ⟨publish_noFault_annErr cfg st v nm pid h hname hh hann,
    headView_stAfter cfg st v pid h, heightView_stAfter cfg st v pid h, rfl⟩

/-- Witness for C4: a concrete publish against the failing announcer. -/
theorem publish_announce_fail_committed_witness :
    publish demoCfgAnn freshSt [] "/p1".data "/ipns/pid1".data
        = .fail (.unsuccessfulAnnounce .announceFailed)
            (stAfter demoCfgAnn freshSt "/p1".data "pid1".data 0) ∧
      headView (stAfter demoCfgAnn freshSt "/p1".data "pid1".data 0)
        = .addr (builtAd demoCfgAnn freshSt "/p1".data "pid1".data 0) ∧
      heightView (stAfter demoCfgAnn freshSt "/p1".data "pid1".data 0)
        = some ((0 + 1) % uint64Mod) ∧
      errMsg (.unsuccessfulAnnounce .announceFailed)
        = "unsuccessful announce: ".data ++ errMsg .announceFailed :=
  publish_announce_fail_committed demoCfgAnn freshSt "/p1".data "/ipns/pid1".data
    "pid1".data 0 rfl rfl rfl

/-- C5: a claimed name lacking the `/ipns/` marker fails the `Publish` call
with the invalid-name error, a name whose remainder does not decode as a peer
identity fails it with the peer-decode error — both in the invalid-name
class, both leaving the datastore state exactly as it was — and every name
with the marker and a decodable remainder parses successfully. -/
theorem publish_invalid_name (cfg : Cfg) (st : St) (v nm : Str) (h : Nat)
    (hh : heightView st = some h) :
    (nm.take nsPfx.length ≠ nsPfx →
       publish cfg st [] v nm = .fail .invalidName st ∧
       Err.isNameErr .invalidName = true) ∧
    (nm.take nsPfx.length = nsPfx → cfg.peerDecode (nm.drop nsPfx.length) = none →
       publish cfg st [] v nm = .fail .invalidPeerID st ∧
       Err.isNameErr .invalidPeerID = true) ∧
    (∀ pid, nm.take nsPfx.length = nsPfx → cfg.peerDecode (nm.drop nsPfx.length) = some pid →
       peerIDFromName cfg.peerDecode nm = .ok pid) := by
  refine ⟨?_, ?_, ?_⟩
  · intro hp
    exact ⟨publish_nameErr cfg st v nm .invalidName h hh
      (peerIDFromName_noNs cfg.peerDecode nm hp), rfl⟩
  · intro hp hd
    exact ⟨publish_nameErr cfg st v nm .invalidPeerID h hh
      (peerIDFromName_badPid cfg.peerDecode nm hp hd), rfl⟩
  · intro pid hp hd
    exact peerIDFromName_okOf cfg.peerDecode nm pid hp hd

/-- Witness for C5: a concrete prefixless name, a concrete undecodable name,
and a concrete valid name. -/
theorem publish_invalid_name_witness :
    (publish demoCfg freshSt [] "/p1".data "pid1".data = .fail .invalidName freshSt ∧
      Err.isNameErr .invalidName = true) ∧
    (publish demoCfg freshSt [] "/p1".data "/ipns/bogus".data = .fail .invalidPeerID freshSt ∧
      Err.isNameErr .invalidPeerID = true) ∧
    peerIDFromName demoCfg.peerDecode "/ipns/pid1".data = .ok "pid1".data :=
  ⟨(publish_invalid_name demoCfg freshSt "/p1".data "pid1".data 0 rfl).1 (by decide),
   (publish_invalid_name demoCfg freshSt "/p1".data "/ipns/bogus".data 0 rfl).2.1
     (by decide) (by decide),
   (publish_invalid_name demoCfg freshSt "/p1".data "/ipns/pid1".data 0 rfl).2.2
     "pid1".data (by decide) (by decide)⟩

/-- C6: every successful `Publish` stores an entries block holding exactly
one multihash — the SHA2-256 digest of the raw identity bytes decoded from
the claimed name — and links the advertisement to it; when the claimed
identity differs from the publisher's own identity, the stored hash is not
the hash of the publisher's identity. -/
theorem publish_entries_one_hash (cfg : Cfg) (st : St) (v nm pid : Str) (h : Nat)
    (hname : peerIDFromName cfg.peerDecode nm = .ok pid)
    (hh : heightView st = some h)
    (hann : cfg.announceFails = false) :
    ∃ st', publish cfg st [] v nm = .ok st' ∧
      headView st' = .addr (builtAd cfg st v pid h) ∧
      Node.entriesOf (builtAd cfg st v pid h) = .addr (Node.entryChunk [sha2mh pid]) ∧
      lookupKV (.ls (Node.entryChunk [sha2mh pid])) st'.store
        = some (.node (Node.entryChunk [sha2mh pid])) ∧
      sha2mh pid = (18, pid) ∧
      (pid ≠ cfg.hostPID → sha2mh pid ≠ sha2mh cfg.hostPID) := by
  refine ⟨stAfter cfg st v pid h, publish_noFault_ok cfg st v nm pid h hname hh hann,
    headView_stAfter cfg st v pid h, rfl, ?_, rfl, ?_⟩
  · simp only [stAfter]
    rw [lookupKV_insertKV_ne _ _ _ (by simp), lookupKV_insertKV_ne _ _ _ (by simp),
      lookupKV_insertKV_ne _ _ _ (by simp [builtAd])]
    exact lookupKV_insertKV_same _ _ _
  · intro hne
    simp [sha2mh, hne]

/-- Witness for C6, at the demo inputs where the claimed identity `pid1`
differs from the publisher identity `hacker`. -/
theorem publish_entries_one_hash_witness :
    ∃ st', publish demoCfg freshSt [] "/p1".data "/ipns/pid1".data = .ok st' ∧
      headView st' = .addr (builtAd demoCfg freshSt "/p1".data "pid1".data 0) ∧
      Node.entriesOf (builtAd demoCfg freshSt "/p1".data "pid1".data 0)
        = .addr (Node.entryChunk [sha2mh "pid1".data]) ∧
      lookupKV (.ls (Node.entryChunk [sha2mh "pid1".data])) st'.store
        = some (.node (Node.entryChunk [sha2mh "pid1".data])) ∧
      sha2mh "pid1".data = (18, "pid1".data) ∧
      ("pid1".data ≠ demoCfg.hostPID → sha2mh "pid1".data ≠ sha2mh demoCfg.hostPID) :=
  publish_entries_one_hash demoCfg freshSt "/p1".data "/ipns/pid1".data "pid1".data 0
    rfl rfl rfl

/-- C7: the metadata field of the advertisement built by every successful
`Publish` is exactly the unsigned-varint encoding of the naming protocol id
concatenated with the marshalled naming-record bytes, stored verbatim. -/
theorem publish_metadata_wire (cfg : Cfg) (st : St) (v nm pid : Str) (h : Nat)
    (hname : peerIDFromName cfg.peerDecode nm = .ok pid)
    (hh : heightView st = some h)
    (hann : cfg.announceFails = false) :
    ∃ st', publish cfg st [] v nm = .ok st' ∧
      headView st' = .addr (builtAd cfg st v pid h) ∧
      Node.mdOf (builtAd cfg st v pid h)
        = toUvarint metadataProtocolID ++ marshalRecord (builtRecord cfg v h) :=
  ⟨stAfter cfg st v pid h, publish_noFault_ok cfg st v nm pid h hname hh hann,
    headView_stAfter cfg st v pid h, rfl⟩

/-- Witness for C7 at the demo inputs. -/
theorem publish_metadata_wire_witness :
    ∃ st', publish demoCfg freshSt [] "/p1".data "/ipns/pid1".data = .ok st' ∧
      headView st' = .addr (builtAd demoCfg freshSt "/p1".data "pid1".data 0) ∧
      Node.mdOf (builtAd demoCfg freshSt "/p1".data "pid1".data 0)
        = toUvarint metadataProtocolID ++ marshalRecord (builtRecord demoCfg "/p1".data 0) :=
  publish_metadata_wire demoCfg freshSt "/p1".data "/ipns/pid1".data "pid1".data 0
    rfl rfl rfl

/-- C8: storing a node twice through the Link Store yields the same content
identifier both times and the store after the second write equals the store
after the first (a single entry, nothing duplicated); loading by that
identifier returns exactly the stored serialization; and a later store of a
different node leaves the first entry untouched (no in-place mutation). -/
theorem lsStore_idempotent_roundtrip (st : St) (n : Node) :
    lsStore st [] n = (.ok (.addr n), ⟨insertKV (.ls n) (.node n) st.store⟩, []) ∧
    lsStore ⟨insertKV (.ls n) (.node n) st.store⟩ [] n
      = (.ok (.addr n), ⟨insertKV (.ls n) (.node n) st.store⟩, []) ∧
    loadNode ⟨insertKV (.ls n) (.node n) st.store⟩ (.addr n) = some n ∧
    (∀ m : Node, m ≠ n →
      lookupKV (.ls n) (insertKV (.ls m) (.node m) (insertKV (.ls n) (.node n) st.store))
        = some (.node n)) := by
  refine ⟨rfl, ?_, ?_, ?_⟩
  · have hs := lsStore_noFault ⟨insertKV (.ls n) (.node n) st.store⟩ [] [] n rfl
    rw [hs, insertKV_insertKV_same]
  · simp [loadNode, lookupKV_insertKV_same]
  · intro m hm
    rw [lookupKV_insertKV_ne _ _ _ (by simpa using Ne.symm hm)]
    exact lookupKV_insertKV_same _ _ _

/-- Witness for C8 at a concrete node. -/
theorem lsStore_idempotent_roundtrip_witness :
    lsStore freshSt [] (Node.entryChunk [(18, "a".data)])
        = (.ok (.addr (Node.entryChunk [(18, "a".data)])),
           ⟨insertKV (.ls (Node.entryChunk [(18, "a".data)]))
             (.node (Node.entryChunk [(18, "a".data)])) freshSt.store⟩, []) ∧
    lsStore ⟨insertKV (.ls (Node.entryChunk [(18, "a".data)]))
        (.node (Node.entryChunk [(18, "a".data)])) freshSt.store⟩ []
        (Node.entryChunk [(18, "a".data)])
      = (.ok (.addr (Node.entryChunk [(18, "a".data)])),
         ⟨insertKV (.ls (Node.entryChunk [(18, "a".data)]))
           (.node (Node.entryChunk [(18, "a".data)])) freshSt.store⟩, []) ∧
    loadNode ⟨insertKV (.ls (Node.entryChunk [(18, "a".data)]))
        (.node (Node.entryChunk [(18, "a".data)])) freshSt.store⟩
        (.addr (Node.entryChunk [(18, "a".data)])) = some (Node.entryChunk [(18, "a".data)]) ∧
    lookupKV (.ls (Node.entryChunk [(18, "a".data)]))
        (insertKV (.ls (Node.entryChunk [])) (.node (Node.entryChunk []))
          (insertKV (.ls (Node.entryChunk [(18, "a".data)]))
            (.node (Node.entryChunk [(18, "a".data)])) freshSt.store))
      = some (.node (Node.entryChunk [(18, "a".data)])) := by
  obtain ⟨h1, h2, h3, h4⟩ := lsStore_idempotent_roundtrip freshSt (Node.entryChunk [(18, "a".data)])
  exact ⟨h1, h2, h3, h4 (Node.entryChunk []) (by decide)⟩

/-- C9: both signatures produced by a successful `Publish` use the single
host key of the publisher: the advertisement signature and the embedded
naming record's signature are the host key's; the record verifies against
the publisher's key and against no other key — in particular not against the
claimed name owner's key when that owner differs from the publisher. -/
theorem publish_two_sigs_one_key (cfg : Cfg) (st : St) (v nm pid : Str) (h : Nat)
    (hname : peerIDFromName cfg.peerDecode nm = .ok pid)
    (hh : heightView st = some h)
    (hann : cfg.announceFails = false) :
    ∃ st', publish cfg st [] v nm = .ok st' ∧
      headView st' = .addr (builtAd cfg st v pid h) ∧
      Node.sigOf (builtAd cfg st v pid h) = cfg.hostKey ∧
      (builtRecord cfg v h).sig.signer = cfg.hostKey ∧
      verifyRecord cfg.hostKey (builtRecord cfg v h) = true ∧
      (∀ ownerKey : Nat, ownerKey ≠ cfg.hostKey →
        verifyRecord ownerKey (builtRecord cfg v h) = false) := by
  refine ⟨stAfter cfg st v pid h, publish_noFault_ok cfg st v nm pid h hname hh hann,
    headView_stAfter cfg st v pid h, rfl, rfl, ?_, ?_⟩
  · simp [verifyRecord, builtRecord, ipnsNewRecord]
  · intro k hk
    simp only [verifyRecord, builtRecord, ipnsNewRecord, beq_eq_false_iff_ne, ne_eq,
      RecSig.mk.injEq, not_and]
    intro hEq
    exact absurd hEq.symm hk

/-- Witness for C9, claiming a name whose owner key (2) differs from the
publisher's host key (1). -/
theorem publish_two_sigs_one_key_witness :
    ∃ st', publish demoCfg freshSt [] "/p1".data "/ipns/pid1".data = .ok st' ∧
      headView st' = .addr (builtAd demoCfg freshSt "/p1".data "pid1".data 0) ∧
      Node.sigOf (builtAd demoCfg freshSt "/p1".data "pid1".data 0) = demoCfg.hostKey ∧
      (builtRecord demoCfg "/p1".data 0).sig.signer = demoCfg.hostKey ∧
      verifyRecord demoCfg.hostKey (builtRecord demoCfg "/p1".data 0) = true ∧
      (∀ ownerKey : Nat, ownerKey ≠ demoCfg.hostKey →
        verifyRecord ownerKey (builtRecord demoCfg "/p1".data 0) = false) :=
  publish_two_sigs_one_key demoCfg freshSt "/p1".data "/ipns/pid1".data "pid1".data 0
    rfl rfl rfl

/-- C10: when the bytes stored under the head key do not parse as a CID,
`getHeadAdCid` returns the undefined CID with no error — corrupt head state
is silently treated as "no chain yet" — and a subsequent `Publish` succeeds,
starting a new chain whose advertisement has an absent previous link. -/
theorem getHead_corrupt_silent (cfg : Cfg) (st : St) (b : Bytes) (v nm pid : Str) (h : Nat)
    (hb : lookupKV .headAdCid st.store = some b)
    (hdec : cidFromBytes b = none)
    (hname : peerIDFromName cfg.peerDecode nm = .ok pid)
    (hh : heightView st = some h)
    (hann : cfg.announceFails = false) :
    getHeadAdCid st [] = (.ok .undefined, []) ∧
    headView st = .undefined ∧
    ∃ st', publish cfg st [] v nm = .ok st' ∧
      headView st' = .addr (builtAd cfg st v pid h) ∧
      Node.prevOf (builtAd cfg st v pid h) = .undefined := by
  have hv : headView st = .undefined := by
    simp only [headView, hb, hdec]
  refine ⟨?_, hv, stAfter cfg st v pid h,
    publish_noFault_ok cfg st v nm pid h hname hh hann,
    headView_stAfter cfg st v pid h, ?_⟩
  · simp only [getHeadAdCid, dsGet_nil, hb, hdec]
  · rw [show Node.prevOf (builtAd cfg st v pid h) = headView st from rfl, hv]

/-- Witness for C10: a state whose head bytes are junk. -/
theorem getHead_corrupt_silent_witness :
    getHeadAdCid stJunkHead [] = (.ok .undefined, []) ∧
    headView stJunkHead = .undefined ∧
    ∃ st', publish demoCfg stJunkHead [] "/p1".data "/ipns/pid1".data = .ok st' ∧
      headView st' = .addr (builtAd demoCfg stJunkHead "/p1".data "pid1".data 0) ∧
      Node.prevOf (builtAd demoCfg stJunkHead "/p1".data "pid1".data 0) = .undefined :=
  getHead_corrupt_silent demoCfg stJunkHead (Bytes.junk 7) "/p1".data "/ipns/pid1".data
    "pid1".data 0 rfl rfl rfl rfl rfl

end Hacknaam
